import Mathlib

/-!
Verification development for the NuxtLink component
(`packages/nuxt/src/app/components/nuxt-link.ts`).

JavaScript strings are modelled as `List Char` (`JStr`), so that the
character-level operations the source uses (`split('#')`, `startsWith`,
regular-expression tests) become simple structural recursions.
-/

set_option maxRecDepth 4096

namespace NuxtLink

/-- JavaScript strings, modelled as lists of characters. -/
abbrev JStr := List Char

/-- Conversion from a Lean string literal to the model. -/
def toL (s : String) : JStr := s.data

/-- JS `String.prototype.split(sep)` for a one-character separator:
always returns at least one (possibly empty) segment. -/
def jsplit (sep : Char) : JStr → List JStr
  | [] => [[]]
  | c :: rest =>
    if c = sep then [] :: jsplit sep rest
    else
      match jsplit sep rest with
      | [] => [[c]]
      | h :: t => (c :: h) :: t

/-- JS `Array.prototype.join(sep)` for a one-character separator. -/
def joinSep (sep : Char) : List JStr → JStr
  | [] => []
  | [x] => x
  | x :: xs => x ++ sep :: joinSep sep xs

/-- Whether `needle` occurs as a contiguous subsequence of the string
(JS `/needle/.test(s)` for a literal pattern such as `/2g/`). -/
def containsSeq (needle : JStr) : JStr → Bool
  | [] => needle.isPrefixOf ([] : JStr)
  | c :: rest => needle.isPrefixOf (c :: rest) || containsSeq needle rest

/-! ### Model of the `ufo` URL collaborator

The component imports `hasProtocol`, `withTrailingSlash`,
`withoutTrailingSlash` and `joinURL` from the `ufo` package.  These are an
external dependency (not part of this repository); they are modelled here
character-for-character after `ufo`'s published implementation. -/

/-- A character matched by `ufo`'s scheme class `[\s\w\0+.-]`
(JS `\w` and `\s` are ASCII word characters and whitespace). -/
def isSchemeChar (c : Char) : Bool :=
  c.isAlphanum || c = '_' || c = '+' || c = '.' || c = '-' ||
  c = ' ' || c = '\t' || c = '\n' || c = '\r' || c = '\x0b' || c = '\x0c' || c = '\x00'

/-- Helper for `protoTest`: `n` counts the scheme characters read so far. -/
def protoTestAux : JStr → Nat → Bool
  | [], _ => false
  | c :: rest, n =>
    if c = ':' then decide (2 ≤ n)
    else if isSchemeChar c then protoTestAux rest (n + 1)
    else false

/-- `ufo`'s `PROTOCOL_REGEX` test `/^[\s\w\0+.-]{2,}:([/\\]{1,2})?/`:
at least two scheme characters followed by a colon. -/
def protoTest (s : JStr) : Bool := protoTestAux s 0

/-- Slash or backslash (the class `[/\\]`). -/
def isSlashy (c : Char) : Bool := c = '/' || c = '\\'

/-- ASCII whitespace (JS `\s`, restricted to the ASCII range). -/
def isWs (c : Char) : Bool :=
  c = ' ' || c = '\t' || c = '\n' || c = '\r' || c = '\x0b' || c = '\x0c'

/-- `ufo`'s `PROTOCOL_RELATIVE_REGEX` test `/^([/\\]\s*){2,}[^/\\]/`,
with the backtracking of `\s*` resolved explicitly: `n` counts the
slash groups consumed so far. -/
def relAux : JStr → Nat → Bool
  | [], _ => false
  | c :: rest, n =>
    if isSlashy c then relAux rest (n + 1)
    else if isWs c && decide (1 ≤ n) then decide (2 ≤ n) || relAux rest n
    else decide (2 ≤ n)

/-- `ufo`'s `hasProtocol(s)` with default options (no `acceptRelative`). -/
def hasProtocolUfo (s : JStr) : Bool := protoTest s

/-- `ufo`'s `hasProtocol(s, { acceptRelative: true })`: a scheme, or a
protocol-relative `//` prefix. -/
def hasProtocolRel (s : JStr) : Bool := protoTest s || relAux s 0

/-- `ufo`'s `TRAILING_SLASH_RE` test `/\/$|\/\?|\/#/`: the string ends in
a slash, or contains `/?` or `/#`. -/
def trailRE : JStr → Bool
  | [] => false
  | c :: rest =>
    (c = '/' && (rest = [] ||
      (match rest with
       | d :: _ => d = '?' || d = '#'
       | [] => false))) || trailRE rest

/-- JS `x || "/"` for strings: the empty string falls back to `"/"`. -/
def orSlash (s : JStr) : JStr := if s = [] then toL "/" else s

/-- `ufo`'s `withTrailingSlash(input, true)` (query and fragment aware). -/
def withTrailingSlashRQF (input : JStr) : JStr :=
  if trailRE input then orSlash input
  else
    let path := input.takeWhile (· ≠ '#')
    let fragment := input.dropWhile (· ≠ '#')
    if fragment ≠ [] ∧ path = [] then fragment
    else
      let parts := jsplit '?' path
      parts.headD [] ++ toL "/" ++
        (match parts.tail with
         | [] => []
         | qs => '?' :: joinSep '?' qs) ++ fragment

/-- `ufo`'s `withoutTrailingSlash(input, true)` (query and fragment aware). -/
def withoutTrailingSlashRQF (input : JStr) : JStr :=
  if !trailRE input then orSlash input
  else
    let path := input.takeWhile (· ≠ '#')
    let fragment := input.dropWhile (· ≠ '#')
    let parts := jsplit '?' path
    orSlash (parts.headD []).dropLast ++
      (match parts.tail with
       | [] => []
       | qs => '?' :: joinSep '?' qs) ++ fragment

/-- `ufo`'s `withTrailingSlash(url)` without the query/fragment flag,
as used inside `joinURL`. -/
def withTrailingSlashSimple (s : JStr) : JStr :=
  if s.getLast? = some '/' then s else s ++ toL "/"

/-- `ufo`'s `joinURL(base, segment)` for a single segment. -/
def joinURL (base seg : JStr) : JStr :=
  if seg = [] || seg = toL "/" then base
  else if base = [] then seg
  else withTrailingSlashSimple base ++ seg.dropWhile (· = '/')

/-! ### Trailing-slash normalization (repository code)

`applyTrailingSlashBehavior` and `resolveTrailingSlashBehavior` from
`nuxt-link.ts`. -/

/-- The two configurable trailing-slash policies (`options.trailingSlash`). -/
inductive TSPolicy where
  | append
  | remove
deriving Repr, DecidableEq

/-- `applyTrailingSlashBehavior(to, trailingSlash)` from `nuxt-link.ts`:
strings with a protocol that is not `http`-prefixed pass through; a truthy
fragment (the second component of `to.split('#')`) is reattached after
normalizing the part before the first `#`. -/
def applyTrailingSlashBehavior (tov : JStr) (p : TSPolicy) : JStr :=
  let normalizeFn := match p with
    | .append => withTrailingSlashRQF
    | .remove => withoutTrailingSlashRQF
  if hasProtocolUfo tov && !((toL "http").isPrefixOf tov) then tov
  else
    let parts := jsplit '#' tov
    match parts.tail.headD [] with
    | [] => normalizeFn tov
    | frag => normalizeFn (parts.headD []) ++ '#' :: frag

/-- The string branch of `resolveTrailingSlashBehavior`: a falsy (empty)
string or an unset policy returns the input unchanged. -/
def resolveTSBstr (ts : Option TSPolicy) (s : JStr) : JStr :=
  match ts with
  | none => s
  | some p => if s = [] then s else applyTrailingSlashBehavior s p

/-! ### Route targets -/

/-- A structured route descriptor (`RouteLocationRaw` object form).
`path = none` models the absence of a `path` key (`'path' in to` false);
`hash` stands in for the remaining fields preserved by the spread. -/
structure RouteObj where
  name : Option JStr
  path : Option JStr
  hash : Option JStr
deriving Repr, DecidableEq

/-- The resolved `to` value: either a raw string or a route object. -/
inductive RouteTarget where
  | str (s : JStr)
  | obj (r : RouteObj)
deriving Repr, DecidableEq

/-- `resolveTrailingSlashBehavior(to, resolve)` from `nuxt-link.ts`.
`resolvePath` models `(to) => router.resolve(to).path`, used only when the
object carries no `path` key. -/
def resolveTrailingSlashBehavior (ts : Option TSPolicy)
    (resolvePath : RouteObj → JStr) (tov : RouteTarget) : RouteTarget :=
  match ts with
  | none => tov
  | some p =>
    match tov with
    | .str s => .str (if s = [] then s else applyTrailingSlashBehavior s p)
    | .obj r =>
      .obj { r with
              name := none
              path := some (applyTrailingSlashBehavior (r.path.getD (resolvePath r)) p) }

/-! ### The Visibility Multiplexer (`useObserver`)

`useObserver` returns a process-wide singleton holding a lazily created
`IntersectionObserver` (`observer`, `null` until first use), a
`Map<Element, CallbackFn>` (`callbacks`), and an `observe` function whose
returned closure removes the element again.  Elements and callbacks are
identified by numeric ids. -/

/-- The mutable state captured by the `useObserver` closure:
`callbacks` is the element-to-callback map (insertion ordered),
`native` records whether `observer !== null`, and `gen` counts how many
times `new IntersectionObserver(...)` has run (to distinguish a reused
watcher from a freshly created one). -/
structure Mux where
  callbacks : List (Nat × Nat)
  native : Bool
  gen : Nat
deriving Repr, DecidableEq

namespace Mux

/-- JS `Map.prototype.set`: replace in place if the key is present,
otherwise append. -/
def mapSet (k v : Nat) : List (Nat × Nat) → List (Nat × Nat)
  | [] => [(k, v)]
  | (k', v') :: rest => if k' = k then (k, v) :: rest else (k', v') :: mapSet k v rest

/-- JS `Map.prototype.delete` (keys are unique, so filtering is it). -/
def mapDelete (k : Nat) (l : List (Nat × Nat)) : List (Nat × Nat) :=
  l.filter (fun e => e.1 ≠ k)

/-- JS `Map.prototype.has` / a successful `Map.prototype.get`. -/
def mapHas (k : Nat) (l : List (Nat × Nat)) : Bool :=
  l.any (fun e => e.1 = k)

/-- The freshly initialised multiplexer: no callbacks, no native observer. -/
def init : Mux := ⟨[], false, 0⟩

/-- `observe(element, callback)`: lazily construct the native observer,
then `callbacks.set(element, callback)` and `observer.observe(element)`. -/
def observe (element callback : Nat) (m : Mux) : Mux :=
  let m1 := if m.native then m else { m with native := true, gen := m.gen + 1 }
  { m1 with callbacks := mapSet element callback m1.callbacks }

/-- Running the closure returned by `observe` for `element`:
`callbacks.delete(element)`, then `observer!.unobserve(element)` — which
throws a `TypeError` when `observer` is `null` (the non-null assertion is
erased at runtime), modelled by the `false` flag — then, if the map became
empty, `observer!.disconnect()` and `observer = null`. -/
def unobsRun (element : Nat) (m : Mux) : Bool × Mux :=
  let cb := mapDelete element m.callbacks
  if m.native = false then (false, { m with callbacks := cb })
  else if cb = [] then (true, { m with callbacks := cb, native := false })
  else (true, { m with callbacks := cb })

/-- The resource-lifecycle invariant: the native observer exists exactly
while at least one element is registered. -/
def Inv (m : Mux) : Prop := m.native = true ↔ m.callbacks ≠ []

instance (m : Mux) : Decidable (Inv m) := by unfold Inv; infer_instance

theorem mapSet_ne_nil (k v : Nat) (l : List (Nat × Nat)) : mapSet k v l ≠ [] := by
  cases l with
  | nil => simp [mapSet]
  | cons e rest =>
    cases e with
    | mk k' v' =>
      by_cases h : k' = k <;> simp [mapSet, h]

theorem observe_native (e c : Nat) (m : Mux) : (observe e c m).native = true := by
  unfold observe
  by_cases h : m.native <;> simp [h]

theorem observe_callbacks (e c : Nat) (m : Mux) :
    (observe e c m).callbacks = mapSet e c m.callbacks := by
  unfold observe
  by_cases h : m.native <;> simp [h]

/-- `observe` re-establishes the invariant unconditionally. -/
theorem inv_observe (e c : Nat) (m : Mux) : Inv (observe e c m) := by
  unfold Inv
  rw [observe_native, observe_callbacks]
  simp [mapSet_ne_nil]

/-- `unobsRun` preserves the invariant, on the error path as well. -/
theorem inv_unobsRun (e : Nat) (m : Mux) (h : Inv m) : Inv (unobsRun e m).2 := by
  unfold Inv at h ⊢
  unfold unobsRun
  cases hb : m.native with
  | false =>
    have hcb : m.callbacks = [] := by
      by_contra hne
      have ht : m.native = true := h.mpr hne
      rw [hb] at ht
      exact absurd ht (by simp)
    simp [hb, hcb, mapDelete]
  | true =>
    by_cases he : mapDelete e m.callbacks = [] <;> simp [hb, he]

/-- Lazy creation: an `observe` on an empty registry constructs a fresh
native observer (the construction counter increases). -/
theorem observe_fresh (e c : Nat) (m : Mux) (h : Inv m) (hemp : m.callbacks = []) :
    (observe e c m).gen = m.gen + 1 := by
  unfold Inv at h
  have hn : m.native = false := by
    cases hb : m.native with
    | false => rfl
    | true => exact absurd hemp (h.mp hb)
  unfold observe
  simp [hn]

/-- No repeated creation: while some element remains watched, `observe`
reuses the existing native observer. -/
theorem observe_reuse (e c : Nat) (m : Mux) (h : Inv m) (hne : m.callbacks ≠ []) :
    (observe e c m).gen = m.gen := by
  unfold Inv at h
  have hn : m.native = true := h.mpr hne
  unfold observe
  simp [hn]

theorem mapDelete_of_not_has (e : Nat) (l : List (Nat × Nat)) (h : mapHas e l = false) :
    mapDelete e l = l := by
  apply List.filter_eq_self.mpr
  intro a ha
  simp only [decide_eq_true_eq]
  intro hae
  rw [mapHas] at h
  have hany : l.any (fun x => x.1 = e) = true :=
    List.any_eq_true.mpr ⟨a, ha, by simp [hae]⟩
  rw [h] at hany
  exact absurd hany (by simp)

end Mux

/-! ### Link props and configuration -/

/-- The props consumed by the logic under verification.  `Option` models
JS `undefined` for an omitted prop; `rel` can also be explicitly `null`
(`Option (Option JStr)`: outer = defined at all, inner = non-null). -/
structure LinkProps where
  external : Option Bool
  target : Option JStr
  rel : Option (Option JStr)
  noRel : Option Bool
  prefetch : Option Bool
  noPrefetch : Option Bool
  custom : Option Bool
deriving Repr, DecidableEq

/-- A `LinkProps` value with every prop omitted. -/
def LinkProps.defaults : LinkProps := ⟨none, none, none, none, none, none, none⟩

/-- The component-wide options used by the render logic. -/
structure LinkOptions where
  externalRelAttribute : Option (Option JStr)
  trailingSlash : Option TSPolicy

/-! ### External-vs-internal classification and href resolution -/

/-- Truthiness of the `target` prop combined with the `'_self'` test:
`props.target && props.target !== '_self'`. -/
def targetSet : Option JStr → Bool
  | none => false
  | some t => !(decide (t = [])) && !(decide (t = toL "_self"))

/-- `isExternal` from `nuxt-link.ts` `setup`: explicit `external` prop,
then non-self `target` prop, then object targets are internal, then the
empty string or a protocol-carrying string is external. -/
def isExternal (p : LinkProps) (tov : RouteTarget) : Bool :=
  if p.external = some true then true
  else if targetSet p.target then true
  else
    match tov with
    | .obj _ => false
    | .str s => decide (s = []) || hasProtocolRel s

/-- The `href` computed in the external render branch: object targets
delegate to the router (`router.resolve(to)?.href ?? null`, modelled by
`res`); plain strings without an explicit `external` prop and without a
protocol are joined onto the base URL and re-normalized; otherwise
`to.value || null` (the empty string becomes `null`). -/
def hrefValue (res : RouteObj → Option JStr) (base : JStr) (ts : Option TSPolicy)
    (p : LinkProps) (tov : RouteTarget) : Option JStr :=
  match tov with
  | .obj r => res r
  | .str s =>
    if s ≠ [] ∧ p.external ≠ some true ∧ hasProtocolRel s = false then
      some (resolveTSBstr ts (joinURL base s))
    else if s = [] then none
    else some s

/-! ### `rel` resolution -/

/-- `firstNonUndefined` from `nuxt-link.ts`: the first argument that is
defined (possibly `null`, which the element type's own `Option` carries). -/
def firstNonUndefined {α : Type} (args : List (Option α)) : Option α :=
  args.findSome? id

/-- The hardcoded safe default `'noopener noreferrer'`. -/
def DEFAULT_EXTERNAL_REL_ATTRIBUTE : JStr := toL "noopener noreferrer"

/-- JS truthiness of the computed `href : string | null`. -/
def hrefTruthy : Option JStr → Bool
  | none => false
  | some s => !(decide (s = []))

/-- JS `x || null` for `x : string | null | undefined`. -/
def jsOrNull : Option (Option JStr) → Option JStr
  | some (some s) => if s = [] then none else some s
  | _ => none

/-- The `rel` computation of the external render branch:
`props.noRel ? null : firstNonUndefined(props.rel,
options.externalRelAttribute, href ? DEFAULT : '') || null`. -/
def relValue (noRel : Option Bool) (relProp extRel : Option (Option JStr))
    (href : Option JStr) : Option JStr :=
  if noRel = some true then none
  else
    jsOrNull (firstNonUndefined
      [relProp, extRel,
       some (some (if hrefTruthy href then DEFAULT_EXTERNAL_REL_ATTRIBUTE else []))])

/-! ### The render function -/

/-- The possible results of the returned render function. -/
inductive RenderResult where
  | routerLink (tov : RouteTarget)
  | anchor (href rel target : Option JStr)
  | custom (href rel target : Option JStr) (ext : Bool)
  | empty
deriving Repr, DecidableEq

/-- The render closure from `setup`: internal targets delegate to
`RouterLink`; external targets compute `href`/`target`/`rel`; in `custom`
mode a missing default slot renders `null`, otherwise the slot is invoked;
without `custom` a plain anchor is produced. -/
def render (res : RouteObj → Option JStr) (base : JStr) (opts : LinkOptions)
    (p : LinkProps) (tov : RouteTarget) (slotPresent : Bool) : RenderResult :=
  if isExternal p tov = false then .routerLink tov
  else
    let href := hrefValue res base opts.trailingSlash p tov
    let target := match p.target with
      | some t => if t = [] then none else some t
      | none => none
    let rel := relValue p.noRel p.rel opts.externalRelAttribute href
    if p.custom = some true then
      if slotPresent then .custom href rel target true else .empty
    else .anchor href rel target

/-! ### Network information and the arming condition -/

/-- The optional `navigator.connection` capability. -/
structure Connection where
  saveData : Bool
  effectiveType : JStr
deriving Repr, DecidableEq

/-- `isSlowConnection()`: capability absent means not slow; otherwise
`saveData` or an effective type matching `/2g/`. -/
def isSlowConnection : Option Connection → Bool
  | none => false
  | some c => c.saveData || containsSeq (toL "2g") c.effectiveType

/-- `shouldPrefetch` from `setup`:
`props.prefetch !== false && props.noPrefetch !== true &&
props.target !== '_blank' && !isSlowConnection()`. -/
def shouldPrefetch (p : LinkProps) (cn : Option Connection) : Bool :=
  decide (p.prefetch ≠ some false) && decide (p.noPrefetch ≠ some true) &&
  decide (p.target ≠ some (toL "_blank")) && !(isSlowConnection cn)

/-! ### The per-link prefetch scheduler

The client-side prefetch logic of `setup` (the `if (shouldPrefetch)`
block together with `onMounted` / `onBeforeUnmount`) composed with the
multiplexer, as a single-threaded event-step machine.  The link's DOM
element is id `0`; its visibility callback is id `0`.  Events model the
host-environment callbacks: component mount, the application-ready
signal (`onNuxtReady`), the idle callback (`requestIdleCallback`),
an intersection notification for the element, component unmount, and
completion of the started asynchronous prefetch work. -/

/-- The interleaved host-environment events. -/
inductive Event where
  | mount
  | ready
  | idle
  | vis (visible : Bool)
  | unmount
  | asyncDone
deriving Repr, DecidableEq

/-- The state of one link instance plus the shared multiplexer.
`armed` is the value of `shouldPrefetch` (fixed at setup);
`readyPending` means the `onNuxtReady` callback is registered and has not
yet run; `idleRequested`/`idlePending` model the `idleId` variable being
set and the idle callback still being scheduled; `elAttached` models
`el.value?.tagName` being usable (the template ref is cleared on
unmount); `unobs` models `unobserve !== null`; `prefetchCalls` counts
invocations of the `link:prefetch` hook; `asyncPending` is the started
but not yet completed prefetch work, which sets `prefetched` when done. -/
structure SysState where
  armed : Bool
  everMounted : Bool
  unmounted : Bool
  elAttached : Bool
  readyPending : Bool
  idleRequested : Bool
  idlePending : Bool
  unobs : Bool
  asyncPending : Bool
  prefetched : Bool
  prefetchCalls : Nat
  mux : Mux
deriving Repr, DecidableEq

/-- The state at setup time: nothing scheduled, empty multiplexer. -/
def initSys (armed : Bool) : SysState :=
  ⟨armed, false, false, false, false, false, false, false, false, false, 0, Mux.init⟩

/-- One event step, translating the source line by line (see the doc
comment of `SysState` for the field correspondences). -/
def step (s : SysState) : Event → SysState
  | .mount =>
    if s.everMounted || s.unmounted then s
    else if s.armed then
      { s with everMounted := true, elAttached := true, readyPending := true }
    else
      { s with everMounted := true, elAttached := true }
  | .ready =>
    if s.readyPending then
      { s with readyPending := false, idleRequested := true, idlePending := true }
    else s
  | .idle =>
    if s.idlePending then
      if s.elAttached then
        { s with idlePending := false, mux := Mux.observe 0 0 s.mux, unobs := true }
      else
        { s with idlePending := false }
    else s
  | .vis b =>
    if b && Mux.mapHas 0 s.mux.callbacks then
      { s with
          mux := if s.unobs then (Mux.unobsRun 0 s.mux).2 else s.mux
          unobs := false
          prefetchCalls := s.prefetchCalls + 1
          asyncPending := true }
    else s
  | .unmount =>
    if s.everMounted && !s.unmounted then
      if s.armed then
        { s with
            unmounted := true, elAttached := false
            idlePending := if s.idleRequested then false else s.idlePending
            mux := if s.unobs then (Mux.unobsRun 0 s.mux).2 else s.mux
            unobs := false }
      else
        { s with unmounted := true, elAttached := false }
    else s
  | .asyncDone =>
    if s.asyncPending then { s with asyncPending := false, prefetched := true } else s

/-- Running a trace of events from the setup state. -/
def runS (armed : Bool) (tr : List Event) : SysState :=
  tr.foldl step (initSys armed)

/-- The one-shot discipline: at most one of the ready callback, the idle
callback and the visibility registration is pending at any time, and once
the hook has been called (`prefetchCalls = 1`) nothing is pending any
more.  The five disjuncts are the five phases a link can be in. -/
def OneShot (s : SysState) : Prop :=
  (s.readyPending = false ∧ s.idlePending = false ∧ s.unobs = false ∧ s.prefetchCalls = 0) ∨
  (s.readyPending = true ∧ s.idlePending = false ∧ s.unobs = false ∧ s.prefetchCalls = 0) ∨
  (s.readyPending = false ∧ s.idlePending = true ∧ s.unobs = false ∧ s.prefetchCalls = 0) ∨
  (s.readyPending = false ∧ s.idlePending = false ∧ s.unobs = true ∧ s.prefetchCalls = 0) ∨
  (s.readyPending = false ∧ s.idlePending = false ∧ s.unobs = false ∧ s.prefetchCalls = 1)

/-- The reachable-state invariant of the scheduler. -/
def SysInv (s : SysState) : Prop :=
  (s.unmounted = true → s.everMounted = true) ∧
  (s.everMounted = false →
    s.readyPending = false ∧ s.idlePending = false ∧ s.idleRequested = false ∧
    s.elAttached = false ∧ s.unobs = false ∧ s.asyncPending = false ∧
    s.prefetchCalls = 0 ∧ s.mux.callbacks = []) ∧
  (s.unmounted = true → s.elAttached = false ∧ s.unobs = false) ∧
  ((s.mux.callbacks = [] ∧ s.unobs = false) ∨
   (s.mux.callbacks = [(0, 0)] ∧ s.unobs = true)) ∧
  Mux.Inv s.mux ∧
  OneShot s ∧
  (s.asyncPending = true → 1 ≤ s.prefetchCalls) ∧
  (s.armed = false →
    s.readyPending = false ∧ s.idlePending = false ∧ s.unobs = false ∧
    s.asyncPending = false ∧ s.prefetchCalls = 0) ∧
  (s.idlePending = true → s.idleRequested = true)

instance (s : SysState) : Decidable (OneShot s) := by unfold OneShot; infer_instance

instance (s : SysState) : Decidable (SysInv s) := by unfold SysInv; infer_instance

theorem sysInv_init (armed : Bool) : SysInv (initSys armed) := by
  cases armed <;> decide

theorem sysInv_step_mount (s : SysState) (h : SysInv s) : SysInv (step s .mount) := by
  obtain ⟨i1, i2, i3, i4, i5, i6, i7, i8, i9⟩ := h
  simp only [step]
  by_cases hg : (s.everMounted || s.unmounted) = true
  · simp only [hg, if_true]
    exact ⟨i1, i2, i3, i4, i5, i6, i7, i8, i9⟩
  · simp only [Bool.or_eq_true, not_or, Bool.not_eq_true] at hg
    obtain ⟨hem, hum⟩ := hg
    obtain ⟨z1, z2, z3, z4, z5, z6, z7, z8⟩ := i2 hem
    simp only [hem, hum, Bool.or_self, Bool.false_eq_true, if_false]
    by_cases ha : s.armed = true
    · simp only [ha, if_true]
      refine ⟨fun _ => rfl, fun hc => absurd hc (by simp), fun hc => absurd hc (by simp [hum]),
        Or.inl ⟨z8, z5⟩, i5, Or.inr (Or.inl ⟨rfl, z2, z5, z7⟩), fun hc => absurd hc (by simp [z6]),
        fun hc => absurd hc (by simp [ha]), fun hc => absurd hc (by simp [z2])⟩
    · simp only [ha, if_false]
      refine ⟨fun _ => rfl, fun hc => absurd hc (by simp), fun hc => absurd hc (by simp [hum]),
        Or.inl ⟨z8, z5⟩, i5, Or.inl ⟨z1, z2, z5, z7⟩, fun hc => absurd hc (by simp [z6]),
        fun _ => ⟨z1, z2, z5, z6, z7⟩, fun hc => absurd hc (by simp [z2])⟩

theorem sysInv_step_ready (s : SysState) (h : SysInv s) : SysInv (step s .ready) := by
  obtain ⟨i1, i2, i3, i4, i5, i6, i7, i8, i9⟩ := h
  simp only [step]
  by_cases hrp : s.readyPending = true
  · simp only [hrp, if_true]
    rcases i6 with ⟨c1, _⟩ | ⟨_, c2, c3, c4⟩ | ⟨c1, _⟩ | ⟨c1, _⟩ | ⟨c1, _⟩
    · exact absurd c1 (by simp [hrp])
    · refine ⟨i1, fun hem => absurd ((i2 hem).1) (by simp [hrp]),
        i3, i4, i5, Or.inr (Or.inr (Or.inl ⟨rfl, rfl, c3, c4⟩)), i7,
        fun ha => absurd ((i8 ha).1) (by simp [hrp]), fun _ => rfl⟩
    · exact absurd c1 (by simp [hrp])
    · exact absurd c1 (by simp [hrp])
    · exact absurd c1 (by simp [hrp])
  · simp only [Bool.not_eq_true] at hrp
    simp only [hrp, Bool.false_eq_true, if_false]
    exact ⟨i1, i2, i3, i4, i5, i6, i7, i8, i9⟩

theorem sysInv_step_idle (s : SysState) (h : SysInv s) : SysInv (step s .idle) := by
  obtain ⟨i1, i2, i3, i4, i5, i6, i7, i8, i9⟩ := h
  simp only [step]
  by_cases hip : s.idlePending = true
  · simp only [hip, if_true]
    rcases i6 with ⟨_, c2, _⟩ | ⟨_, c2, _⟩ | ⟨c1, _, c3, c4⟩ | ⟨_, c2, _⟩ | ⟨_, c2, _⟩
    · exact absurd c2 (by simp [hip])
    · exact absurd c2 (by simp [hip])
    · have hcb : s.mux.callbacks = [] := by
        rcases i4 with ⟨hc, _⟩ | ⟨_, huo⟩
        · exact hc
        · exact absurd huo (by simp [c3])
      by_cases hel : s.elAttached = true
      · rw [if_pos hel]
        have hmc : (Mux.observe 0 0 s.mux).callbacks = [(0, 0)] := by
          rw [Mux.observe_callbacks, hcb]
          rfl
        refine ⟨i1, fun hem => absurd ((i2 hem).2.2.2.1) (by simp [hel]),
          fun hum => absurd ((i3 hum).1) (by simp [hel]),
          Or.inr ⟨hmc, rfl⟩, Mux.inv_observe 0 0 s.mux,
          Or.inr (Or.inr (Or.inr (Or.inl ⟨c1, rfl, rfl, c4⟩))), i7,
          fun ha => absurd ((i8 ha).2.1) (by simp [hip]),
          fun hc => absurd hc (by simp)⟩
      · rw [if_neg hel]
        refine ⟨i1,
          fun hem => by
            obtain ⟨z1, _, z3, z4, z5, z6, z7, z8⟩ := i2 hem
            exact ⟨z1, rfl, z3, z4, z5, z6, z7, z8⟩,
          i3, i4, i5, Or.inl ⟨c1, rfl, c3, c4⟩, i7,
          fun ha => by
            obtain ⟨w1, _, w3, w4, w5⟩ := i8 ha
            exact ⟨w1, rfl, w3, w4, w5⟩,
          fun hc => absurd hc (by simp)⟩
    · exact absurd c2 (by simp [hip])
    · exact absurd c2 (by simp [hip])
  · simp only [Bool.not_eq_true] at hip
    simp only [hip, Bool.false_eq_true, if_false]
    exact ⟨i1, i2, i3, i4, i5, i6, i7, i8, i9⟩

theorem sysInv_step_vis (b : Bool) (s : SysState) (h : SysInv s) : SysInv (step s (.vis b)) := by
  obtain ⟨i1, i2, i3, i4, i5, i6, i7, i8, i9⟩ := h
  simp only [step]
  by_cases hg : (b && Mux.mapHas 0 s.mux.callbacks) = true
  · have hg2 := hg
    simp only [Bool.and_eq_true] at hg2
    obtain ⟨hb, hmh⟩ := hg2
    simp only [hg, if_true]
    obtain ⟨hcb, huo⟩ : s.mux.callbacks = [(0, 0)] ∧ s.unobs = true := by
      rcases i4 with ⟨hc, _⟩ | ⟨hc, huo⟩
      · rw [hc] at hmh
        exact absurd hmh (by simp [Mux.mapHas])
      · exact ⟨hc, huo⟩
    have hnat : s.mux.native = true := by
      unfold Mux.Inv at i5
      exact i5.mpr (by simp [hcb])
    have hdel : (Mux.unobsRun 0 s.mux).2.callbacks = [] ∧ (Mux.unobsRun 0 s.mux).2.native = false := by
      simp [Mux.unobsRun, Mux.mapDelete, hcb, hnat]
    rcases i6 with ⟨_, _, c3, _⟩ | ⟨_, _, c3, _⟩ | ⟨_, _, c3, _⟩ | ⟨c1, c2, _, c4⟩ | ⟨_, _, c3, _⟩
    · exact absurd c3 (by simp [huo])
    · exact absurd c3 (by simp [huo])
    · exact absurd c3 (by simp [huo])
    · simp only [huo, if_true]
      refine ⟨i1, fun hem => absurd ((i2 hem).2.2.2.2.1) (by simp [huo]),
        fun hum => absurd ((i3 hum).2) (by simp [huo]),
        Or.inl ⟨hdel.1, rfl⟩, Mux.inv_unobsRun 0 s.mux i5,
        Or.inr (Or.inr (Or.inr (Or.inr ⟨c1, c2, rfl, by simp [c4]⟩))),
        fun _ => by simp,
        fun ha => absurd ((i8 ha).2.2.1) (by simp [huo]), i9⟩
    · exact absurd c3 (by simp [huo])
  · simp only [Bool.not_eq_true] at hg
    simp only [hg, Bool.false_eq_true, if_false]
    exact ⟨i1, i2, i3, i4, i5, i6, i7, i8, i9⟩

theorem sysInv_step_unmount (s : SysState) (h : SysInv s) : SysInv (step s .unmount) := by
  obtain ⟨i1, i2, i3, i4, i5, i6, i7, i8, i9⟩ := h
  simp only [step]
  by_cases hg : (s.everMounted && !s.unmounted) = true
  · have hg2 := hg
    simp only [Bool.and_eq_true, Bool.not_eq_true'] at hg2
    obtain ⟨hem, hnu⟩ := hg2
    simp only [hg, if_true]
    by_cases ha : s.armed = true
    · simp only [ha, if_true]
      have hip' : (if s.idleRequested then false else s.idlePending) = false := by
        cases hir : s.idleRequested with
        | true => simp
        | false =>
          simp only [Bool.false_eq_true, if_false]
          cases hip : s.idlePending with
          | false => rfl
          | true => exact absurd (i9 hip) (by simp [hir])
      have hmc : (if s.unobs then (Mux.unobsRun 0 s.mux).2 else s.mux).callbacks = [] ∧
          Mux.Inv (if s.unobs then (Mux.unobsRun 0 s.mux).2 else s.mux) := by
        rcases i4 with ⟨hc, huo⟩ | ⟨hc, huo⟩
        · simp only [huo, Bool.false_eq_true, if_false]
          exact ⟨hc, i5⟩
        · have hnat : s.mux.native = true := by
            unfold Mux.Inv at i5
            exact i5.mpr (by simp [hc])
          simp only [huo, if_true]
          constructor
          · simp [Mux.unobsRun, Mux.mapDelete, hc, hnat]
          · exact Mux.inv_unobsRun 0 s.mux i5
      refine ⟨fun _ => hem, fun hc => absurd hc (by simp [hem]),
        fun _ => ⟨rfl, rfl⟩, Or.inl ⟨hmc.1, rfl⟩, hmc.2, ?_, i7,
        fun hc => absurd hc (by simp [ha]),
        fun hc => absurd hc (by simp [hip'])⟩
      rcases i6 with ⟨c1, _, _, c4⟩ | ⟨c1, _, _, c4⟩ | ⟨c1, _, _, c4⟩ | ⟨c1, _, _, c4⟩ | ⟨c1, _, _, c4⟩
      · exact Or.inl ⟨c1, hip', rfl, c4⟩
      · exact Or.inr (Or.inl ⟨c1, hip', rfl, c4⟩)
      · exact Or.inl ⟨c1, hip', rfl, c4⟩
      · exact Or.inl ⟨c1, hip', rfl, c4⟩
      · exact Or.inr (Or.inr (Or.inr (Or.inr ⟨c1, hip', rfl, c4⟩)))
    · simp only [ha, if_false]
      simp only [Bool.not_eq_true] at ha
      obtain ⟨w1, w2, w3, w4, w5⟩ := i8 ha
      exact ⟨fun _ => hem, fun hc => absurd hc (by simp [hem]),
        fun _ => ⟨rfl, w3⟩, i4, i5, i6, i7, fun _ => ⟨w1, w2, w3, w4, w5⟩, i9⟩
  · simp only [Bool.not_eq_true] at hg
    simp only [hg, Bool.false_eq_true, if_false]
    exact ⟨i1, i2, i3, i4, i5, i6, i7, i8, i9⟩

theorem sysInv_step_asyncDone (s : SysState) (h : SysInv s) : SysInv (step s .asyncDone) := by
  obtain ⟨i1, i2, i3, i4, i5, i6, i7, i8, i9⟩ := h
  simp only [step]
  by_cases hap : s.asyncPending = true
  · simp only [hap, if_true]
    exact ⟨i1, fun hem => absurd ((i2 hem).2.2.2.2.2.1) (by simp [hap]),
      i3, i4, i5, i6, fun hc => absurd hc (by simp),
      fun ha => absurd ((i8 ha).2.2.2.1) (by simp [hap]), i9⟩
  · simp only [Bool.not_eq_true] at hap
    simp only [hap, Bool.false_eq_true, if_false]
    exact ⟨i1, i2, i3, i4, i5, i6, i7, i8, i9⟩

/-- The invariant is preserved by every event. -/
theorem sysInv_step (s : SysState) (e : Event) (h : SysInv s) : SysInv (step s e) := by
  cases e with
  | mount => exact sysInv_step_mount s h
  | ready => exact sysInv_step_ready s h
  | idle => exact sysInv_step_idle s h
  | vis b => exact sysInv_step_vis b s h
  | unmount => exact sysInv_step_unmount s h
  | asyncDone => exact sysInv_step_asyncDone s h

/-- The invariant holds along every trace. -/
theorem sysInv_foldl (s : SysState) (tr : List Event) (h : SysInv s) :
    SysInv (tr.foldl step s) := by
  induction tr generalizing s with
  | nil => exact h
  | cons e rest ih => exact ih (step s e) (sysInv_step s e h)

/-- Every state reachable from setup satisfies the invariant. -/
theorem sysInv_runS (armed : Bool) (tr : List Event) : SysInv (runS armed tr) :=
  sysInv_foldl (initSys armed) tr (sysInv_init armed)

theorem step_armed (s : SysState) (e : Event) : (step s e).armed = s.armed := by
  cases e <;> simp only [step] <;> split_ifs <;> rfl

theorem step_unmounted_stable (s : SysState) (e : Event) (hum : s.unmounted = true) :
    (step s e).unmounted = true := by
  cases e with
  | mount => simp [step, hum]
  | ready => by_cases h : s.readyPending = true <;> simp [step, h, hum]
  | idle =>
    by_cases h : s.idlePending = true <;> by_cases h2 : s.elAttached = true <;>
      simp [step, h, h2, hum]
  | vis b =>
    by_cases h : (b && Mux.mapHas 0 s.mux.callbacks) = true <;> simp [step, h, hum]
  | unmount => simp [step, hum]
  | asyncDone => by_cases h : s.asyncPending = true <;> simp [step, h, hum]

/-- After unmount, no step can invoke the prefetch hook again. -/
theorem step_prefetch_frozen (s : SysState) (e : Event) (h : SysInv s)
    (hum : s.unmounted = true) : (step s e).prefetchCalls = s.prefetchCalls := by
  obtain ⟨i1, i2, i3, i4, i5, i6, i7, i8, i9⟩ := h
  cases e with
  | mount => simp [step, hum]
  | ready => by_cases hrp : s.readyPending = true <;> simp [step, hrp]
  | idle =>
    by_cases hip : s.idlePending = true <;> by_cases hel : s.elAttached = true <;>
      simp [step, hip, hel]
  | vis b =>
    have huo : s.unobs = false := (i3 hum).2
    have hcb : s.mux.callbacks = [] := by
      rcases i4 with ⟨hc, _⟩ | ⟨_, h2⟩
      · exact hc
      · rw [huo] at h2
        exact absurd h2 (by simp)
    have hmh : Mux.mapHas 0 s.mux.callbacks = false := by simp [hcb, Mux.mapHas]
    simp [step, hmh]
  | unmount => simp [step, hum]
  | asyncDone => by_cases hap : s.asyncPending = true <;> simp [step, hap]

theorem foldl_prefetch_frozen (s : SysState) (tr : List Event) (h : SysInv s)
    (hum : s.unmounted = true) : (tr.foldl step s).prefetchCalls = s.prefetchCalls := by
  induction tr generalizing s with
  | nil => rfl
  | cons e rest ih =>
    rw [List.foldl_cons,
      ih (step s e) (sysInv_step s e h) (step_unmounted_stable s e hum),
      step_prefetch_frozen s e ⟨h.1, h.2.1, h.2.2.1, h.2.2.2.1, h.2.2.2.2.1,
        h.2.2.2.2.2.1, h.2.2.2.2.2.2.1, h.2.2.2.2.2.2.2.1, h.2.2.2.2.2.2.2.2⟩ hum]

theorem foldl_armed (s : SysState) (tr : List Event) :
    (tr.foldl step s).armed = s.armed := by
  induction tr generalizing s with
  | nil => rfl
  | cons e rest ih => rw [List.foldl_cons, ih (step s e), step_armed]

theorem oneShot_prefetch_le_one (s : SysState) (h : OneShot s) : s.prefetchCalls ≤ 1 := by
  rcases h with ⟨_, _, _, c4⟩ | ⟨_, _, _, c4⟩ | ⟨_, _, _, c4⟩ | ⟨_, _, _, c4⟩ | ⟨_, _, _, c4⟩ <;>
    simp [c4]

/-! ### Lemmas about splitting and scheme detection, for the
trailing-slash fragment behaviour. -/

theorem jsplit_no_sep (sep : Char) (s : JStr) (h : sep ∉ s) : jsplit sep s = [s] := by
  induction s with
  | nil => rfl
  | cons c rest ih =>
    have hc : ¬(c = sep) := fun hc => h (hc ▸ List.mem_cons_self c rest)
    have hrest : sep ∉ rest := fun hm => h (List.mem_cons_of_mem c hm)
    simp only [jsplit, hc, if_false, ih hrest]

theorem jsplit_append_sep (sep : Char) (pre rest : JStr) (h : sep ∉ pre) :
    jsplit sep (pre ++ sep :: rest) = pre :: jsplit sep rest := by
  induction pre with
  | nil => simp [jsplit]
  | cons c pre' ih =>
    have hc : ¬(c = sep) := fun hc => h (hc ▸ List.mem_cons_self c pre')
    have hpre : sep ∉ pre' := fun hm => h (List.mem_cons_of_mem c hm)
    rw [List.cons_append]
    simp only [jsplit, hc, if_false]
    rw [ih hpre]

theorem protoTestAux_append_hash (pre frag : JStr) (n : Nat) :
    protoTestAux (pre ++ '#' :: frag) n = protoTestAux pre n := by
  induction pre generalizing n with
  | nil =>
    have h1 : ¬('#' = ':') := by decide
    have h2 : isSchemeChar '#' = false := by decide
    simp [protoTestAux, h1, h2]
  | cons c pre' ih =>
    by_cases hc : c = ':'
    · simp [protoTestAux, hc]
    · by_cases hsc : isSchemeChar c = true
      · simp [protoTestAux, hc, hsc, ih]
      · simp only [Bool.not_eq_true] at hsc
        simp [protoTestAux, hc, hsc]

theorem protoTest_append_hash (pre frag : JStr) :
    protoTest (pre ++ '#' :: frag) = protoTest pre :=
  protoTestAux_append_hash pre frag 0

theorem isPrefixOf_append_hash (pat pre frag : JStr) (hpat : '#' ∉ pat) :
    pat.isPrefixOf (pre ++ '#' :: frag) = pat.isPrefixOf pre := by
  induction pat generalizing pre with
  | nil => simp [List.isPrefixOf]
  | cons a pat' ih =>
    have ha : ¬(a = '#') := fun hc => hpat (hc ▸ List.mem_cons_self a pat')
    have hpat' : '#' ∉ pat' := fun hm => hpat (List.mem_cons_of_mem a hm)
    cases pre with
    | nil =>
      simp only [List.nil_append, List.isPrefixOf]
      have : (a == '#') = false := by
        simp [ha]
      simp [this]
    | cons c pre' =>
      simp only [List.cons_append, List.isPrefixOf]
      show (a == c && pat'.isPrefixOf (pre' ++ '#' :: frag)) = (a == c && pat'.isPrefixOf pre')
      rw [ih pre' hpat']

/-- The protocol-and-not-http branch condition of
`applyTrailingSlashBehavior` ignores everything from the first `#` on. -/
theorem applyTSB_cond_append_hash (pre frag : JStr) :
    (hasProtocolUfo (pre ++ '#' :: frag) && !((toL "http").isPrefixOf (pre ++ '#' :: frag))) =
    (hasProtocolUfo pre && !((toL "http").isPrefixOf pre)) := by
  have hpat : '#' ∉ toL "http" := by decide
  rw [hasProtocolUfo, hasProtocolUfo, protoTest_append_hash,
    isPrefixOf_append_hash (toL "http") pre frag hpat]

/-- Fragment preservation: on a string `pre#frag` whose fragment is
nonempty and `#`-free, normalization rewrites only `pre` and reattaches
`#frag` verbatim. -/
theorem applyTSB_fragment (pre frag : JStr) (p : TSPolicy)
    (hpre : '#' ∉ pre) (hfrag : '#' ∉ frag) (hne : frag ≠ []) :
    applyTrailingSlashBehavior (pre ++ '#' :: frag) p =
    applyTrailingSlashBehavior pre p ++ '#' :: frag := by
  obtain ⟨f0, frest, rfl⟩ := List.exists_cons_of_ne_nil hne
  unfold applyTrailingSlashBehavior
  rw [applyTSB_cond_append_hash]
  by_cases hcond : (hasProtocolUfo pre && !((toL "http").isPrefixOf pre)) = true
  · simp [hcond]
  · simp only [Bool.not_eq_true] at hcond
    simp only [hcond, Bool.false_eq_true, if_false]
    rw [jsplit_append_sep '#' pre (f0 :: frest) hpre,
      jsplit_no_sep '#' (f0 :: frest) hfrag,
      jsplit_no_sep '#' pre hpre]
    rfl

/-- Dropped content: with two `#` separators (and no scheme on the part
before the first `#`), everything from the second `#` on is discarded. -/
theorem applyTSB_two_hashes (pre f1 f2 : JStr) (p : TSPolicy)
    (hproto : hasProtocolUfo pre = false)
    (hpre : '#' ∉ pre) (hf1 : '#' ∉ f1) (hne : f1 ≠ []) :
    applyTrailingSlashBehavior (pre ++ '#' :: (f1 ++ '#' :: f2)) p =
    applyTrailingSlashBehavior pre p ++ '#' :: f1 := by
  obtain ⟨f0, frest, rfl⟩ := List.exists_cons_of_ne_nil hne
  unfold applyTrailingSlashBehavior
  have hfull : hasProtocolUfo (pre ++ '#' :: ((f0 :: frest) ++ '#' :: f2)) = false := by
    rw [hasProtocolUfo, protoTest_append_hash]
    exact hproto
  simp only [hfull, hproto, Bool.false_and, Bool.false_eq_true, if_false]
  rw [jsplit_append_sep '#' pre ((f0 :: frest) ++ '#' :: f2) hpre,
    jsplit_append_sep '#' (f0 :: frest) f2 hf1,
    jsplit_no_sep '#' pre hpre]
  rfl

/-! ### Helper for the unmount cancellation contract -/

/-- Effect of the unmount step on an armed, mounted, not yet unmounted
state: the idle callback is cancelled, the `unobserve` handle is cleared,
and the element is no longer registered with the multiplexer. -/
theorem unmount_cancels (s : SysState) (h : SysInv s) (hem : s.everMounted = true)
    (hnu : s.unmounted = false) (ha : s.armed = true) :
    (step s .unmount).idlePending = false ∧ (step s .unmount).unobs = false ∧
    Mux.mapHas 0 (step s .unmount).mux.callbacks = false := by
  obtain ⟨i1, i2, i3, i4, i5, i6, i7, i8, i9⟩ := h
  have hg : (s.everMounted && !s.unmounted) = true := by simp [hem, hnu]
  simp only [step]
  rw [if_pos hg, if_pos ha]
  refine ⟨?_, rfl, ?_⟩
  · cases hir : s.idleRequested with
    | true => simp
    | false =>
      simp only [Bool.false_eq_true, if_false]
      cases hip : s.idlePending with
      | false => rfl
      | true => exact absurd (i9 hip) (by simp [hir])
  · rcases i4 with ⟨hc, huo⟩ | ⟨hc, huo⟩
    · simp only [huo, Bool.false_eq_true, if_false]
      simp [hc, Mux.mapHas]
    · have hnat : s.mux.native = true := by
        unfold Mux.Inv at i5
        exact i5.mpr (by simp [hc])
      simp only [huo, if_true]
      simp [Mux.unobsRun, Mux.mapDelete, hc, hnat, Mux.mapHas]

/-! ### The claims -/

/-- C1: for every link instance the visibility-triggered prefetch work is
attempted at most once: along every event trace the `link:prefetch` hook
is invoked at most once (even if the watcher fires repeatedly), and
whenever the asynchronous prefetch work is outstanding the registration
has already been released (the `unobserve` handle is cleared and the
element is no longer in the multiplexer's map). -/
theorem claim_C1 :
    (∀ (a : Bool) (tr : List Event), (runS a tr).prefetchCalls ≤ 1) ∧
    (∀ (a : Bool) (tr : List Event), (runS a tr).asyncPending = true →
      (runS a tr).unobs = false ∧ Mux.mapHas 0 (runS a tr).mux.callbacks = false) := by
  constructor
  · intro a tr
    exact oneShot_prefetch_le_one _ (sysInv_runS a tr).2.2.2.2.2.1
  · intro a tr hap
    obtain ⟨i1, i2, i3, i4, i5, i6, i7, i8, i9⟩ := sysInv_runS a tr
    have hpc := i7 hap
    rcases i6 with ⟨_, _, c3, c4⟩ | ⟨_, _, c3, c4⟩ | ⟨_, _, c3, c4⟩ | ⟨_, _, c3, c4⟩ | ⟨_, _, c3, c4⟩
    · rw [c4] at hpc
      exact absurd hpc (by simp)
    · rw [c4] at hpc
      exact absurd hpc (by simp)
    · rw [c4] at hpc
      exact absurd hpc (by simp)
    · rw [c4] at hpc
      exact absurd hpc (by simp)
    · refine ⟨c3, ?_⟩
      rcases i4 with ⟨hc, _⟩ | ⟨_, huo⟩
      · simp [hc, Mux.mapHas]
      · rw [c3] at huo
        exact absurd huo (by simp)

/-- Witness for C1 on the trace mount, app-ready, idle, visibility. -/
theorem claim_C1_witness :
    (runS true [Event.mount, Event.ready, Event.idle, Event.vis true]).asyncPending = true ∧
    ((runS true [Event.mount, Event.ready, Event.idle, Event.vis true]).unobs = false ∧
      Mux.mapHas 0
        (runS true [Event.mount, Event.ready, Event.idle, Event.vis true]).mux.callbacks = false) :=
  ⟨by decide, claim_C1.2 true [Event.mount, Event.ready, Event.idle, Event.vis true] (by decide)⟩

/-- C2: the shared watcher is created lazily on the first `observe`, is
not re-created while any element remains watched, and is disposed as soon
as the map empties: the invariant "native observer exists iff the
callback map is nonempty" holds after every `observe`/`unobserve`, a
first `observe` on an empty registry constructs a fresh watcher, and an
`observe` on a nonempty registry reuses the existing one. -/
theorem claim_C2 :
    (∀ (e c : Nat) (m : Mux), Mux.Inv (Mux.observe e c m)) ∧
    (∀ (e : Nat) (m : Mux), Mux.Inv m → Mux.Inv (Mux.unobsRun e m).2) ∧
    (∀ (e c : Nat) (m : Mux), Mux.Inv m → m.callbacks = [] →
      (Mux.observe e c m).gen = m.gen + 1) ∧
    (∀ (e c : Nat) (m : Mux), Mux.Inv m → m.callbacks ≠ [] →
      (Mux.observe e c m).gen = m.gen) :=
  ⟨fun e c m => Mux.inv_observe e c m,
   fun e m h => Mux.inv_unobsRun e m h,
   fun e c m h he => Mux.observe_fresh e c m h he,
   fun e c m h hne => Mux.observe_reuse e c m h hne⟩

/-- Witness for C2: registering, releasing (which disposes the watcher),
then registering a different element creates a fresh watcher. -/
theorem claim_C2_witness :
    Mux.Inv (Mux.unobsRun 1 ⟨[(1, 7)], true, 1⟩).2 ∧
    (Mux.observe 5 9 (⟨[], false, 1⟩ : Mux)).gen = 2 ∧
    (Mux.observe 5 9 (⟨[(1, 7)], true, 1⟩ : Mux)).gen = 1 :=
  ⟨claim_C2.2.1 1 ⟨[(1, 7)], true, 1⟩ (by decide),
   claim_C2.2.2.1 5 9 ⟨[], false, 1⟩ (by decide) (by decide),
   claim_C2.2.2.2 5 9 ⟨[(1, 7)], true, 1⟩ (by decide) (by decide)⟩

/-- C3: on unmount of an armed link, the outstanding idle callback is
cancelled and the outstanding observation is released; consequently the
prefetch hook is never invoked after the unmount event, under any
interleaving of subsequent events (including a manually triggered idle
callback). -/
theorem claim_C3 :
    (∀ (a : Bool) (tr : List Event),
      (runS a tr).everMounted = true → (runS a tr).unmounted = false →
      (runS a tr).armed = true →
        (step (runS a tr) .unmount).idlePending = false ∧
        (step (runS a tr) .unmount).unobs = false ∧
        Mux.mapHas 0 (step (runS a tr) .unmount).mux.callbacks = false) ∧
    (∀ (a : Bool) (tr tr' : List Event),
      (runS a (tr ++ [.unmount])).unmounted = true →
      (runS a (tr ++ .unmount :: tr')).prefetchCalls =
        (runS a (tr ++ [.unmount])).prefetchCalls) := by
  constructor
  · intro a tr hem hnu ha
    exact unmount_cancels (runS a tr) (sysInv_runS a tr) hem hnu ha
  · intro a tr tr' hum
    have heq : tr ++ Event.unmount :: tr' = (tr ++ [Event.unmount]) ++ tr' := by simp
    rw [runS, heq, List.foldl_append]
    exact foldl_prefetch_frozen (runS a (tr ++ [Event.unmount])) tr'
      (sysInv_runS a (tr ++ [Event.unmount])) hum

/-- Witness for C3: a link unmounted after app-ready but before the idle
slot never calls the hook, even when idle and visibility fire later. -/
theorem claim_C3_witness :
    ((step (runS true [Event.mount, Event.ready]) Event.unmount).idlePending = false ∧
      (step (runS true [Event.mount, Event.ready]) Event.unmount).unobs = false ∧
      Mux.mapHas 0
        (step (runS true [Event.mount, Event.ready]) Event.unmount).mux.callbacks = false) ∧
    (runS true ([Event.mount, Event.ready] ++
        Event.unmount :: [Event.idle, Event.vis true])).prefetchCalls =
      (runS true ([Event.mount, Event.ready] ++ [Event.unmount])).prefetchCalls :=
  ⟨claim_C3.1 true [Event.mount, Event.ready] (by decide) (by decide) (by decide),
   claim_C3.2 true [Event.mount, Event.ready] [Event.idle, Event.vis true] (by decide)⟩

/-- C4: external-vs-internal classification follows the ordered rules of
the source: explicit `external` prop wins, then a truthy non-`_self`
`target` prop, then object targets are internal, then the empty string is
external with a null href, then a protocol-carrying string is external,
and otherwise the target is internal. -/
theorem claim_C4 (p : LinkProps) (tov : RouteTarget) (res : RouteObj → Option JStr)
    (base : JStr) (ts : Option TSPolicy) :
    (p.external = some true → isExternal p tov = true) ∧
    (p.external ≠ some true → targetSet p.target = true → isExternal p tov = true) ∧
    (p.external ≠ some true → targetSet p.target = false →
      ∀ r, tov = .obj r → isExternal p tov = false) ∧
    (p.external ≠ some true → targetSet p.target = false → tov = .str [] →
      isExternal p tov = true ∧ hrefValue res base ts p tov = none) ∧
    (p.external ≠ some true → targetSet p.target = false →
      ∀ s, tov = .str s → hasProtocolRel s = true → isExternal p tov = true) ∧
    (p.external ≠ some true → targetSet p.target = false →
      ∀ s, tov = .str s → s ≠ [] → hasProtocolRel s = false → isExternal p tov = false) := by
  refine ⟨?_, ?_, ?_, ?_, ?_, ?_⟩
  · intro h
    simp [isExternal, h]
  · intro h ht
    simp [isExternal, h, ht]
  · intro h ht r hr
    subst hr
    simp [isExternal, h, ht]
  · intro h ht hs
    subst hs
    exact ⟨by simp [isExternal, h, ht], by simp [hrefValue]⟩
  · intro h ht s hs hp
    subst hs
    simp [isExternal, h, ht, hp]
  · intro h ht s hs hne hp
    subst hs
    simp [isExternal, h, ht, hne, hp]

/-- Witness for C4 at the empty-string target with default props. -/
theorem claim_C4_witness :
    isExternal LinkProps.defaults (.str []) = true ∧
    hrefValue (fun _ => none) [] none LinkProps.defaults (.str []) = none :=
  (claim_C4 LinkProps.defaults (.str []) (fun _ => none) [] none).2.2.2.1
    (by decide) (by decide) rfl

/-- Counterexample to C5 as stated: after `observe` and a first call of
the returned function (which empties the map and disposes the watcher), a
second call is not a harmless no-op — it dereferences the null watcher
(`observer!.unobserve`) and fails. -/
theorem claim_C5_counterexample :
    (Mux.unobsRun 0 (Mux.unobsRun 0 (Mux.observe 0 0 Mux.init)).2).1 = false := by decide

/-- C5 (amended): the returned function is idempotent only while the
shared watcher still exists: if other elements remain watched, a second
call is a no-op that neither fails nor changes the registry; but once the
first call emptied the map and disposed the watcher, a second call fails
on the null watcher (leaving the empty registry unchanged). -/
theorem claim_C5_theorem :
    (∀ (e : Nat) (m : Mux), Mux.Inv m → Mux.mapHas e m.callbacks = false →
      m.callbacks ≠ [] → Mux.unobsRun e m = (true, m)) ∧
    (∀ (e g : Nat), Mux.unobsRun e ⟨[], false, g⟩ = (false, ⟨[], false, g⟩)) := by
  constructor
  · intro e m hinv hnot hne
    obtain ⟨cb, nat, g⟩ := m
    unfold Mux.Inv at hinv
    simp only at hinv hnot hne
    have hnat : nat = true := hinv.mpr hne
    subst hnat
    have hdel : Mux.mapDelete e cb = cb := Mux.mapDelete_of_not_has e cb hnot
    simp [Mux.unobsRun, hdel, hne]
  · intro e g
    rfl

/-- Witness for C5 (amended): releasing an element not in the registry
while another element remains watched is a no-op. -/
theorem claim_C5_witness :
    Mux.unobsRun 0 ⟨[(1, 4)], true, 1⟩ = (true, ⟨[(1, 4)], true, 1⟩) :=
  claim_C5_theorem.1 0 ⟨[(1, 4)], true, 1⟩ (by decide) (by decide) (by decide)

/-- C6: a link arms prefetching iff the `prefetch` prop is not `false`,
the `noPrefetch` prop is not `true`, the `target` prop is not `_blank`,
and the connection is not slow (absent network information counts as not
slow; otherwise slow means `saveData` or an effective type matching
`2g`); an unarmed link never invokes the prefetch hook on any trace. -/
theorem claim_C6 :
    (∀ (p : LinkProps) (cn : Option Connection),
      shouldPrefetch p cn = true ↔
        (p.prefetch ≠ some false ∧ p.noPrefetch ≠ some true ∧
         p.target ≠ some (toL "_blank") ∧
         ∀ c, cn = some c →
           c.saveData = false ∧ containsSeq (toL "2g") c.effectiveType = false)) ∧
    (∀ (p : LinkProps) (cn : Option Connection) (tr : List Event),
      shouldPrefetch p cn = false →
      (runS (shouldPrefetch p cn) tr).prefetchCalls = 0) := by
  constructor
  · intro p cn
    cases cn with
    | none => simp [shouldPrefetch, isSlowConnection, and_assoc]
    | some c =>
      simp only [shouldPrefetch, isSlowConnection, Bool.and_eq_true, Bool.not_eq_true',
        Bool.or_eq_false_iff, decide_eq_true_eq]
      constructor
      · rintro ⟨⟨⟨h1, h2⟩, h3⟩, h4, h5⟩
        exact ⟨h1, h2, h3, fun c' hc' => by cases hc'; exact ⟨h4, h5⟩⟩
      · rintro ⟨h1, h2, h3, h4⟩
        obtain ⟨h5, h6⟩ := h4 c rfl
        exact ⟨⟨⟨h1, h2⟩, h3⟩, h5, h6⟩
  · intro p cn tr h
    rw [h]
    have harm : (runS false tr).armed = false := foldl_armed (initSys false) tr
    obtain ⟨i1, i2, i3, i4, i5, i6, i7, i8, i9⟩ := sysInv_runS false tr
    exact (i8 harm).2.2.2.2

/-- Witness for C6: `saveData: true` keeps a default-props link inert on
a full mount/ready/idle/visibility trace. -/
theorem claim_C6_witness :
    (runS (shouldPrefetch LinkProps.defaults (some ⟨true, toL "4g"⟩))
      [Event.mount, Event.ready, Event.idle, Event.vis true]).prefetchCalls = 0 :=
  claim_C6.2 LinkProps.defaults (some ⟨true, toL "4g"⟩)
    [Event.mount, Event.ready, Event.idle, Event.vis true] (by decide)

/-- Counterexample to C7 as stated: `httpx:y` carries the non-HTTP scheme
`httpx`, yet append-normalization changes it (the code only tests the
`http` string prefix); and in `/a#b#c` the fragment `b#c` is not
reappended verbatim — everything from the second `#` on is dropped. -/
theorem claim_C7_counterexample :
    applyTrailingSlashBehavior (toL "httpx:y") .append = toL "httpx:y/" ∧
    toL "httpx:y/" ≠ toL "httpx:y" ∧
    hasProtocolUfo (toL "httpx:y") = true ∧
    (jsplit ':' (toL "httpx:y")).headD [] = toL "httpx" ∧
    toL "httpx" ≠ toL "http" ∧ toL "httpx" ≠ toL "https" ∧
    applyTrailingSlashBehavior (toL "/a#b#c") .append = toL "/a/#b" ∧
    toL "/a/#b" ≠ toL "/a/" ++ toL "#b#c" := by decide

/-- C7 (amended): trailing-slash normalization is the identity on strings
whose scheme test succeeds and that do not start with the four characters
`http`; for a string with a single `#`, the rewrite applies only to the
part before the `#` and the fragment is reappended verbatim; with two or
more `#` characters only the portion between the first and second `#` is
reappended and the rest is dropped. -/
theorem claim_C7_theorem :
    (∀ (s : JStr) (p : TSPolicy), hasProtocolUfo s = true →
      (toL "http").isPrefixOf s = false → applyTrailingSlashBehavior s p = s) ∧
    (∀ (pre frag : JStr) (p : TSPolicy), '#' ∉ pre → '#' ∉ frag → frag ≠ [] →
      applyTrailingSlashBehavior (pre ++ '#' :: frag) p =
        applyTrailingSlashBehavior pre p ++ '#' :: frag) ∧
    (∀ (pre f1 f2 : JStr) (p : TSPolicy), hasProtocolUfo pre = false →
      '#' ∉ pre → '#' ∉ f1 → f1 ≠ [] →
      applyTrailingSlashBehavior (pre ++ '#' :: (f1 ++ '#' :: f2)) p =
        applyTrailingSlashBehavior pre p ++ '#' :: f1) := by
  refine ⟨?_, ?_, ?_⟩
  · intro s p h1 h2
    unfold applyTrailingSlashBehavior
    simp [h1, h2]
  · intro pre frag p h1 h2 h3
    exact applyTSB_fragment pre frag p h1 h2 h3
  · intro pre f1 f2 p h0 h1 h2 h3
    exact applyTSB_two_hashes pre f1 f2 p h0 h1 h2 h3

/-- Witness for C7 (amended): `mailto:` strings pass through unchanged
and a single-fragment string is normalized before the `#` only. -/
theorem claim_C7_witness :
    applyTrailingSlashBehavior (toL "mailto:a.b") .append = toL "mailto:a.b" ∧
    applyTrailingSlashBehavior (toL "/docs" ++ '#' :: toL "sec") .append =
      applyTrailingSlashBehavior (toL "/docs") .append ++ '#' :: toL "sec" :=
  ⟨claim_C7_theorem.1 (toL "mailto:a.b") .append (by decide) (by decide),
   claim_C7_theorem.2.1 (toL "/docs") (toL "sec") .append (by decide) (by decide) (by decide)⟩

/-- C8: with an `append` or `remove` policy configured, normalizing an
object target rewrites `path` (resolving it through the router when the
object has no `path` key), clears `name`, and preserves the remaining
fields; in particular `{ name: "x", path: "/a" }` under `remove` becomes
`{ name: undefined, path: "/a" }`. -/
theorem claim_C8 :
    (∀ (r : RouteObj) (res : RouteObj → JStr) (p : TSPolicy),
      resolveTrailingSlashBehavior (some p) res (.obj r) =
        .obj ⟨none, some (applyTrailingSlashBehavior (r.path.getD (res r)) p), r.hash⟩) ∧
    resolveTrailingSlashBehavior (some .remove) (fun _ => [])
        (.obj ⟨some (toL "x"), some (toL "/a"), none⟩) =
      .obj ⟨none, some (toL "/a"), none⟩ := by
  constructor
  · intro r res p
    cases r
    rfl
  · decide

/-- Counterexample to C9 as stated: an empty-string `rel` prop does not
fall through to the configured default external rel — it yields a null
`rel` (the code takes the first defined value, then collapses the empty
string to null). -/
theorem claim_C9_counterexample :
    relValue none (some (some [])) (some (some (toL "nofollow"))) (some (toL "/x")) = none ∧
    relValue none (some (some [])) (some (some (toL "nofollow"))) (some (toL "/x")) ≠
      some (toL "nofollow") := by decide

/-- The amended cascade, following the spec's wording as corrected: take
the first defined (possibly null) value among the `rel` prop, the
configured default, and the href-dependent hardcoded default, then
collapse null or the empty string to null. -/
def relCascadeAmended (noRel : Option Bool) (relProp extRel : Option (Option JStr))
    (href : Option JStr) : Option JStr :=
  if noRel = some true then none
  else
    let v : Option JStr :=
      match relProp with
      | some x => x
      | none =>
        match extRel with
        | some y => y
        | none => some (if hrefTruthy href then DEFAULT_EXTERNAL_REL_ATTRIBUTE else [])
    match v with
    | none => none
    | some s => if s = [] then none else some s

/-- C9 (amended): if `noRel` is set the result is null; otherwise the
result is the first defined value among the explicit `rel` prop, the
configured default external rel, and (`'noopener noreferrer'` when href
is non-null, else the empty string), with a null or empty-string value
collapsed to null rather than falling through to the next fallback. -/
theorem claim_C9_theorem :
    ∀ (noRel : Option Bool) (relProp extRel : Option (Option JStr)) (href : Option JStr),
      relValue noRel relProp extRel href = relCascadeAmended noRel relProp extRel href := by
  intro nr rp er h
  by_cases hnr : nr = some true
  · simp [relValue, relCascadeAmended, hnr]
  · cases rp with
    | some x =>
      simp [relValue, relCascadeAmended, hnr, firstNonUndefined, jsOrNull]
      cases x <;> simp
    | none =>
      cases er with
      | some y =>
        simp [relValue, relCascadeAmended, hnr, firstNonUndefined, jsOrNull]
        cases y <;> simp
      | none =>
        simp [relValue, relCascadeAmended, hnr, firstNonUndefined, jsOrNull]

/-- C10: in custom render mode an external target with no default slot
renders nothing (`null`), producing neither an anchor nor a call of the
caller's rendering strategy. -/
theorem claim_C10 :
    ∀ (res : RouteObj → Option JStr) (base : JStr) (opts : LinkOptions)
      (p : LinkProps) (tov : RouteTarget),
      isExternal p tov = true → p.custom = some true →
      render res base opts p tov false = .empty := by
  intro res base opts p tov hext hc
  simp [render, hext, hc]

/-- Witness for C10 at a concrete external custom link. -/
theorem claim_C10_witness :
    render (fun _ => none) [] ⟨none, none⟩
      ⟨some true, none, none, none, none, none, some true⟩ (.str (toL "/x")) false =
      .empty :=
  claim_C10 (fun _ => none) [] ⟨none, none⟩
    ⟨some true, none, none, none, none, none, some true⟩ (.str (toL "/x"))
    (by decide) (by decide)

end NuxtLink
